import Mathlib

/-!
Verification of the ctd plotting core (src/ctd/plotting.py): `get_maxdepth`,
`extrap_sec` and `gen_topomask`.

Modelling conventions.
Floating-point cell values are modelled as `Option ℚ`: `none` is the IEEE NaN
("no value") marker, `some v` a finite value.  Finite float arithmetic is
modelled exactly over ℚ; the NaN-propagation rules of IEEE arithmetic
(`w * NaN = NaN` even for `w = 0`, `NaN + x = NaN`) are the `fmul` / `fadd`
definitions below.  Grids are functions `Fin m → Fin n → FVal` (row index =
depth level, column index = station), matching the numpy layout: iterating
`for row in data` walks the first index, `data.T` swaps the two.
-/

unseal Rat.mul Rat.inv Rat.add Rat.sub

/-- A float cell: `none` models NaN (the "no value" marker). -/
abbrev FVal := Option ℚ

/-- Scalar-by-array float multiplication at one cell: `w * NaN = NaN` for every
`w`, finite values multiply exactly. -/
def fmul (w : ℚ) : FVal → FVal
  | some v => some (w * v)
  | none => none

/-- Float addition at one cell: if either operand is NaN the sum is NaN. -/
def fadd : FVal → FVal → FVal
  | some a, some b => some (a + b)
  | _, _ => none

/-- Binary maximum on ℚ, written out so that the kernel can evaluate it. -/
def qmax (a b : ℚ) : ℚ := if a ≤ b then b else a

theorem qmax_eq_max (a b : ℚ) : qmax a b = max a b := (max_def a b).symm

/-- numpy max over a 1-D array, modelled for the nonempty case (`np.max`
raises on an empty array, which no claim exercises): fold of `qmax` seeded
with the head. -/
def npmax (l : List ℚ) : ℚ := l.foldl qmax l.headI

/-- get_maxdepth (plotting.py lines 36-38).  `self` is a DataFrame whose index
is the depth axis and whose columns are stations; `valid_last_depth =
self.apply(Series.notnull).values.T` is the per-station boolean validity mask
(`stations` below is already the transposed, per-station view), and the result
is `np.float_(self.index * valid_last_depth).max(axis=1)`: per station, the
elementwise product of the depth index with the 0/1 mask, then the max over
depth. -/
def get_maxdepth (index : List ℚ) (stations : List (List FVal)) : List ℚ :=
  stations.map (fun st =>
    npmax ((index.zip st).map (fun p => p.1 * (if p.2.isSome then 1 else 0))))

theorem npmax_of_all_eq {l : List ℚ} {c : ℚ} (hne : l ≠ [])
    (h : ∀ x ∈ l, x = c) : npmax l = c := by
  match l, hne with
  | x :: t, _ =>
    have hx : x = c := h x (List.mem_cons_self x t)
    subst hx
    show List.foldl qmax (qmax x x) t = x
    rw [qmax_eq_max, max_self]
    induction t with
    | nil => rfl
    | cons y t ih =>
      have hy : y = x := h y (List.mem_cons_of_mem x (List.mem_cons_self y t))
      subst hy
      show List.foldl qmax (qmax y y) t = y
      rw [qmax_eq_max, max_self]
      exact ih (by simp) (fun z hz => h z (by simp at hz ⊢; tauto))

/-- C2.  The claim states that on a station with values `[1,2,NaN,4,NaN]` at
depths `[10,20,30,40,50]`, get_maxdepth returns depth 20.  It does not: the
per-station array `index * mask` is `[10,20,0,40,0]` and its max is 40. -/
theorem C2_counterexample :
    get_maxdepth [10, 20, 30, 40, 50]
      [[some 1, some 2, none, some 4, none]] ≠ [20] := by decide

/-- C2, amended.  On a station with values `[1,2,NaN,4,NaN]` at depths
`[10,20,30,40,50]`, get_maxdepth returns depth 40 — the depth of the deepest
valid (non-missing) entry, not the deepest index. -/
theorem C2_amended :
    get_maxdepth [10, 20, 30, 40, 50]
      [[some 1, some 2, none, some 4, none]] = [40] := by decide

/-- C3.  The claim states that a station with zero valid values yields an
undefined/NaN depth, "not zero".  It does not: each product `index * mask`
entry is 0 for an all-invalid station, so the max — and the returned depth —
is exactly 0. -/
theorem C3_counterexample :
    get_maxdepth [10, 20, 30, 40, 50]
      [[none, none, none, none, none]] = [0] := by decide

/-- C3, amended.  A station with zero valid (non-missing) values yields depth
0 from get_maxdepth (the whole `index * mask` product vanishes), not NaN;
downstream consumers therefore see an ordinary 0, not a filterable marker. -/
theorem C3_amended (index : List ℚ) (st : List FVal) (hne : index.zip st ≠ [])
    (h : ∀ v ∈ st, v = none) : get_maxdepth index [st] = [0] := by
  show [npmax ((index.zip st).map (fun p => p.1 * (if p.2.isSome then 1 else 0)))] = [0]
  have : npmax ((index.zip st).map (fun p => p.1 * (if p.2.isSome then 1 else 0))) = 0 := by
    apply npmax_of_all_eq
    · simpa using hne
    · intro x hx
      rcases List.mem_map.1 hx with ⟨p, hp, rfl⟩
      have h2 : p.2 ∈ st := (List.of_mem_zip hp).2
      rw [h p.2 h2]
      simp
  rw [this]

theorem C3_amended_witness :
    get_maxdepth [7, 9] [[(none : FVal), none]] = [0] :=
  C3_amended [7, 9] [none, none] (by decide) (by decide)

/-!
The extrap_sec embedding (plotting.py lines 41-99).

scipy.interpolate.interp1d with the default kind is the piecewise-linear
interpolant through strictly increasing nodes; it is consumed as a black box
by the source and embedded here as segment-walking evaluation.

Modelled from the spec: extrap1d (the LinearExtrapolant of spec section 4.1)
lives in utilities.py, which is not under src/.  Per the spec it wraps a
fitted interpolant so that a query below the domain returns
`y(x_min) + slope_at_boundary * (x - x_min)` and a query above returns
`y(x_max) + slope_at_boundary * (x - x_max)`, the slope being estimated from
the interpolant's value at the boundary and one step inward — for a
piecewise-linear interpolant that is exactly the first (resp. last) segment's
slope.  Hence the composite `extrap1d(interp1d(x, y))` evaluates the boundary
segment's linear formula outside the domain and the covering segment's
formula inside it, which is what `extrapEval` computes: it walks the segments
and applies the first segment whose right endpoint is at or beyond the query,
falling through to the last segment (whose formula linearly extends beyond
the last node); queries below the first node take the first segment's formula
because its guard also covers them.
-/

/-- Evaluation of the extrapolated piecewise-linear interpolant fitted to
`pts` (sorted by first component) at query `x`: the composite
`extrap1d(interp1d(xs, ys))` applied at `x` (plotting.py lines 79-81/93-95).
The nil and singleton cases are unreachable in the source (the caller fits
only with at least two points). -/
def extrapEval : List (ℚ × ℚ) → ℚ → ℚ
  | [], _ => 0
  | [p], _ => p.2
  | [p, q], x => p.2 + (x - p.1) * (q.2 - p.2) / (q.1 - p.1)
  | p :: q :: r :: rest, x =>
      if x ≤ q.1 then p.2 + (x - p.1) * (q.2 - p.2) / (q.1 - p.1)
      else extrapEval (q :: r :: rest) x

/-- The valid (axis, value) pairs of one 1-D slice, in axis order: the pairs
`zip(axis[mask], row[mask])` that interp1d is fitted to (plotting.py lines
72-78: `mask = ~np.isnan(row)`, `y = row[mask]`, `x = dist[mask]`). -/
def rowPts {n : ℕ} (axis : Fin n → ℚ) (row : Fin n → FVal) : List (ℚ × ℚ) :=
  (List.finRange n).filterMap (fun j => (row j).map (fun y => (axis j, y)))

/-- One directional pass of extrap_sec over a single 1-D slice (plotting.py
lines 72-81, identically lines 86-95): if no valid entry, the slice is kept
as is; if exactly one valid entry, that value is broadcast over the whole
slice (`np.repeat(y, len(mask))`); otherwise the extrapolated interpolant
fitted to the valid pairs is evaluated over the full axis (`f_x(dist)`). -/
def passRow {n : ℕ} (axis : Fin n → ℚ) (row : Fin n → FVal) : Fin n → FVal :=
  let pts := rowPts axis row
  if pts = [] then row
  else if pts.length = 1 then fun _ => some pts.headI.2
  else fun j => some (extrapEval pts (axis j))

/-- new_data1 of extrap_sec (plotting.py lines 70-82): the along-depth pass,
one `passRow` per depth row of the grid, fitted against the distance axis. -/
def alongDistPass {m n : ℕ} (dist : Fin n → ℚ) (data : Fin m → Fin n → FVal) :
    Fin m → Fin n → FVal :=
  fun i => passRow dist (data i)

/-- new_data2 of extrap_sec (plotting.py lines 84-96): the along-station
pass, one `passRow` per station column of `data.T`, fitted against the depth
axis.  The result is indexed (station, depth) as in the source; the final
blend transposes it back. -/
def alongDepthPass {m n : ℕ} (depth : Fin m → ℚ) (data : Fin m → Fin n → FVal) :
    Fin n → Fin m → FVal :=
  fun j => passRow depth (fun i => data i j)

/-- extrap_sec (plotting.py lines 41-99): both directional passes followed by
the blend `new_data = np.array(new_data1) * w1 + np.array(new_data2).T * w2`
(line 98), with IEEE NaN propagation in `*` and `+`. -/
def extrap_sec {m n : ℕ} (data : Fin m → Fin n → FVal) (dist : Fin n → ℚ)
    (depth : Fin m → ℚ) (w1 w2 : ℚ) : Fin m → Fin n → FVal :=
  let new_data1 : Fin m → Fin n → FVal := fun i => passRow dist (data i)
  let new_data2 : Fin n → Fin m → FVal := fun j => passRow depth (fun i => data i j)
  fun i j => fadd (fmul w1 (new_data1 i j)) (fmul w2 (new_data2 j i))

/-- The blend exactly as the spec words it (claim C1, spec section 4.3 step
3): `result = w1 * column_pass + w2 * row_pass`, i.e. w1 on the along-station
(per-column, depth-axis) pass and w2 on the along-depth (per-row,
distance-axis) pass.  Stated only to be compared against `extrap_sec`. -/
def extrap_sec_claimed {m n : ℕ} (data : Fin m → Fin n → FVal) (dist : Fin n → ℚ)
    (depth : Fin m → ℚ) (w1 w2 : ℚ) : Fin m → Fin n → FVal :=
  fun i j => fadd (fmul w1 (alongDepthPass depth data j i))
    (fmul w2 (alongDistPass dist data i j))

/-- C1.  The claim weights the passes the wrong way round: on the grid
`[[1, NaN], [2, 5]]` with axes `[0, 1]` and weights `w1 = 1, w2 = 0`, the
code returns the along-depth (row) pass value 1 at cell (0,1), while the
claimed blend `w1 * column_pass + w2 * row_pass` gives the along-station
value 5 there. -/
theorem C1_counterexample :
    extrap_sec (![![some 1, none], ![some 2, some 5]]) ![0, 1] ![0, 1] 1 0 0 1 ≠
      extrap_sec_claimed (![![some 1, none], ![some 2, some 5]]) ![0, 1] ![0, 1] 1 0 0 1 := by
  decide

/-- C1, amended.  extrap_sec returns elementwise
`w1 * along_depth_row_pass + w2 * along_station_column_pass`: w1 weights the
per-depth-row pass fitted against the distance axis (new_data1) and w2
weights the per-station-column pass fitted against the depth axis
(new_data2, transposed back), with NaN-propagating arithmetic. -/
theorem C1_amended {m n : ℕ} (data : Fin m → Fin n → FVal) (dist : Fin n → ℚ)
    (depth : Fin m → ℚ) (w1 w2 : ℚ) (i : Fin m) (j : Fin n) :
    extrap_sec data dist depth w1 w2 i j =
      fadd (fmul w1 (alongDistPass dist data i j))
        (fmul w2 (alongDepthPass depth data j i)) := rfl

theorem fmul_none (w : ℚ) : fmul w none = none := rfl

theorem fadd_none_left (x : FVal) : fadd none x = none := by cases x <;> rfl

theorem fadd_none_right (x : FVal) : fadd x none = none := by cases x <;> rfl

theorem rowPts_eq_nil {n : ℕ} (axis : Fin n → ℚ) (row : Fin n → FVal)
    (h : ∀ j, row j = none) : rowPts axis row = [] := by
  unfold rowPts
  exact List.filterMap_eq_nil_iff.mpr (fun j _ => by rw [h j]; rfl)

theorem mem_rowPts {n : ℕ} (axis : Fin n → ℚ) (row : Fin n → FVal) (j : Fin n)
    (y : ℚ) (h : row j = some y) : (axis j, y) ∈ rowPts axis row := by
  unfold rowPts
  exact List.mem_filterMap.2 ⟨j, List.mem_finRange j, by rw [h]; rfl⟩

theorem passRow_of_all_none {n : ℕ} (axis : Fin n → ℚ) (row : Fin n → FVal)
    (h : ∀ j, row j = none) : passRow axis row = row := by
  unfold passRow
  rw [if_pos (rowPts_eq_nil axis row h)]

theorem passRow_of_two_le {n : ℕ} (axis : Fin n → ℚ) (row : Fin n → FVal)
    (h : 2 ≤ (rowPts axis row).length) :
    passRow axis row = fun j => some (extrapEval (rowPts axis row) (axis j)) := by
  unfold passRow
  have h0 : ¬ rowPts axis row = [] := by
    intro e; rw [e] at h; simp at h
  have h1 : ¬ (rowPts axis row).length = 1 := by omega
  rw [if_neg h0, if_neg h1]

theorem passRow_isSome {n : ℕ} (axis : Fin n → ℚ) (row : Fin n → FVal)
    (h : rowPts axis row ≠ []) (j : Fin n) : (passRow axis row j).isSome := by
  unfold passRow
  rw [if_neg h]
  by_cases h1 : (rowPts axis row).length = 1
  · rw [if_pos h1]; rfl
  · rw [if_neg h1]; rfl

theorem rowPts_pairwise {n : ℕ} (axis : Fin n → ℚ)
    (hax : ∀ a b : Fin n, a < b → axis a < axis b) (row : Fin n → FVal) :
    (rowPts axis row).Pairwise (fun p q => p.1 < q.1) := by
  unfold rowPts
  rw [List.pairwise_filterMap]
  apply List.Pairwise.imp ?_ (List.pairwise_lt_finRange n)
  intro j1 j2 hlt b hb c hc
  rcases Option.map_eq_some'.1 hb with ⟨y1, _, rfl⟩
  rcases Option.map_eq_some'.1 hc with ⟨y2, _, rfl⟩
  exact hax j1 j2 hlt

theorem rowPts_length_le {n : ℕ} (axis : Fin n → ℚ) (row1 row2 : Fin n → FVal)
    (h : ∀ j, (row1 j).isSome → (row2 j).isSome) :
    (rowPts axis row1).length ≤ (rowPts axis row2).length := by
  unfold rowPts
  rw [List.length_filterMap_eq_countP, List.length_filterMap_eq_countP]
  apply List.countP_mono_left
  intro j _ hj
  simp only [Option.isSome_map'] at hj ⊢
  exact h j hj

theorem filterMap_eq_single {α β : Type} [DecidableEq α] (f : α → Option β)
    (a : α) (b : β) (hfa : f a = some b) (hf : ∀ x, x ≠ a → f x = none) :
    ∀ l : List α, l.count a = 1 → l.filterMap f = [b] := by
  intro l
  induction l with
  | nil => intro h; simp at h
  | cons x t ih =>
    intro hc
    by_cases hx : x = a
    · subst hx
      rw [List.count_cons_self] at hc
      have ht : t.count x = 0 := by omega
      have hnone : ∀ z ∈ t, f z = none := by
        intro z hz
        apply hf
        intro e; subst e
        exact (List.count_eq_zero.1 ht) hz
      rw [List.filterMap_cons_some hfa, List.filterMap_eq_nil_iff.mpr hnone]
    · rw [List.count_cons_of_ne (fun e => hx e.symm)] at hc
      rw [List.filterMap_cons_none (hf x hx)]
      exact ih hc

theorem rowPts_single {n : ℕ} (axis : Fin n → ℚ) (row : Fin n → FVal)
    (j0 : Fin n) (v : ℚ) (h0 : row j0 = some v)
    (h1 : ∀ j, j ≠ j0 → row j = none) :
    rowPts axis row = [(axis j0, v)] := by
  unfold rowPts
  apply filterMap_eq_single _ j0 (axis j0, v) ?_ ?_ _ ?_
  · rw [h0]; rfl
  · intro x hx; rw [h1 x hx]; rfl
  · exact List.count_eq_one_of_mem (List.nodup_finRange n) (List.mem_finRange j0)

theorem passRow_single {n : ℕ} (axis : Fin n → ℚ) (row : Fin n → FVal)
    (j0 : Fin n) (v : ℚ) (h0 : row j0 = some v)
    (h1 : ∀ j, j ≠ j0 → row j = none) (j : Fin n) :
    passRow axis row j = some v := by
  have hr := rowPts_single axis row j0 v h0 h1
  unfold passRow
  rw [hr]
  simp


/-- C4.  For every depth row of the grid with at least 2 valid values, the
along-depth pass of extrap_sec replaces every entry of that row — originally
valid entries included — with the extrapolated interpolant fitted to the
row's valid points evaluated at the full distance axis, so no "no value"
marker remains in that row of the pass output; symmetrically for every
station column with at least 2 valid values under the along-station pass
against the depth axis. -/
theorem C4_full_replacement {m n : ℕ} (data : Fin m → Fin n → FVal)
    (dist : Fin n → ℚ) (depth : Fin m → ℚ) (i0 : Fin m) (j0 : Fin n) :
    (2 ≤ (rowPts dist (data i0)).length →
      ∀ j, alongDistPass dist data i0 j =
        some (extrapEval (rowPts dist (data i0)) (dist j))) ∧
    (2 ≤ (rowPts depth (fun i => data i j0)).length →
      ∀ i, alongDepthPass depth data j0 i =
        some (extrapEval (rowPts depth (fun i => data i j0)) (depth i))) := by
  constructor
  · intro h j
    show passRow dist (data i0) j = _
    rw [passRow_of_two_le dist (data i0) h]
  · intro h i
    show passRow depth (fun i => data i j0) i = _
    rw [passRow_of_two_le depth (fun i => data i j0) h]

theorem C4_witness :
    alongDistPass ![(0 : ℚ), 1]
      (![![some 1, some 2], ![some 3, some 4]] : Fin 2 → Fin 2 → FVal) 0 1 = some 2 ∧
    alongDepthPass ![(0 : ℚ), 1]
      (![![some 1, some 2], ![some 3, some 4]] : Fin 2 → Fin 2 → FVal) 0 1 = some 3 := by
  constructor
  · have h := (C4_full_replacement
      (![![some 1, some 2], ![some 3, some 4]] : Fin 2 → Fin 2 → FVal)
      ![(0 : ℚ), 1] ![(0 : ℚ), 1] 0 0).1 (by decide) 1
    rw [h]; decide
  · have h := (C4_full_replacement
      (![![some 1, some 2], ![some 3, some 4]] : Fin 2 → Fin 2 → FVal)
      ![(0 : ℚ), 1] ![(0 : ℚ), 1] 0 0).2 (by decide) 1
    rw [h]; decide

/-- C5.  A depth row with exactly one valid value v — at any position —
comes out of the along-depth (row) pass with every entry equal to v (the
single value is broadcast across the row); symmetrically, a station column
with exactly one valid value v comes out of the along-station (column) pass
with every entry equal to v. -/
theorem C5_broadcast {m n : ℕ} (data : Fin m → Fin n → FVal) (dist : Fin n → ℚ)
    (depth : Fin m → ℚ) (i0 : Fin m) (j0 : Fin n) (v : ℚ) :
    ((data i0 j0 = some v ∧ ∀ j, j ≠ j0 → data i0 j = none) →
      ∀ j, alongDistPass dist data i0 j = some v) ∧
    ((data i0 j0 = some v ∧ ∀ i, i ≠ i0 → data i j0 = none) →
      ∀ i, alongDepthPass depth data j0 i = some v) := by
  constructor
  · rintro ⟨h0, h1⟩ j
    exact passRow_single dist (data i0) j0 v h0 h1 j
  · rintro ⟨h0, h1⟩ i
    exact passRow_single depth (fun i => data i j0) i0 v h0 h1 i

theorem C5_witness :
    alongDistPass ![(0 : ℚ), 1, 2]
      (![![none, some 6, none]] : Fin 1 → Fin 3 → FVal) 0 2 = some 6 ∧
    alongDepthPass ![(0 : ℚ)]
      (![![none, some 6, none]] : Fin 1 → Fin 3 → FVal) 1 0 = some 6 := by
  constructor
  · exact (C5_broadcast (![![none, some 6, none]] : Fin 1 → Fin 3 → FVal)
      ![(0 : ℚ), 1, 2] ![(0 : ℚ)] 0 1 6).1 ⟨by decide, by decide⟩ 2
  · exact (C5_broadcast (![![none, some 6, none]] : Fin 1 → Fin 3 → FVal)
      ![(0 : ℚ), 1, 2] ![(0 : ℚ)] 0 1 6).2 ⟨by decide, by decide⟩ 0

/-- C6.  A depth row (resp. station column) with zero valid points does not
make extrap_sec fail: in the embedding extrap_sec is a total function, the
directional pass returns such a slice unchanged (still all "no value"
markers, compare lines 71-73 of plotting.py where the `mask.any()` guard
skips the fit), and the markers propagate silently through the blend into
the returned grid for every choice of weights. -/
theorem C6_silent_degradation {m n : ℕ} (data : Fin m → Fin n → FVal)
    (dist : Fin n → ℚ) (depth : Fin m → ℚ) (i0 : Fin m) (j0 : Fin n) :
    ((∀ j, data i0 j = none) →
      (∀ j, alongDistPass dist data i0 j = none) ∧
      ∀ w1 w2 j, extrap_sec data dist depth w1 w2 i0 j = none) ∧
    ((∀ i, data i j0 = none) →
      (∀ i, alongDepthPass depth data j0 i = none) ∧
      ∀ w1 w2 i, extrap_sec data dist depth w1 w2 i j0 = none) := by
  constructor
  · intro h
    have hp : passRow dist (data i0) = data i0 := passRow_of_all_none dist (data i0) h
    constructor
    · intro j
      show passRow dist (data i0) j = none
      rw [hp]; exact h j
    · intro w1 w2 j
      show fadd (fmul w1 (passRow dist (data i0) j)) _ = none
      rw [hp, h j, fmul_none, fadd_none_left]
  · intro h
    have hp : passRow depth (fun i => data i j0) = fun i => data i j0 :=
      passRow_of_all_none depth (fun i => data i j0) h
    constructor
    · intro i
      show passRow depth (fun i => data i j0) i = none
      rw [hp]; exact h i
    · intro w1 w2 i
      have hcell : passRow depth (fun i => data i j0) i = none := by
        rw [hp]; exact h i
      show fadd _ (fmul w2 (passRow depth (fun i => data i j0) i)) = none
      rw [hcell, fmul_none, fadd_none_right]

theorem C6_witness :
    extrap_sec (![![none, none], ![some 7, none]] : Fin 2 → Fin 2 → FVal)
      ![(0 : ℚ), 1] ![(0 : ℚ), 1] (97/100) (3/100) 0 1 = none ∧
    extrap_sec (![![none, none], ![some 7, none]] : Fin 2 → Fin 2 → FVal)
      ![(0 : ℚ), 1] ![(0 : ℚ), 1] (1/2) (1/2) 0 1 = none := by
  constructor
  · exact ((C6_silent_degradation
      (![![none, none], ![some 7, none]] : Fin 2 → Fin 2 → FVal)
      ![(0 : ℚ), 1] ![(0 : ℚ), 1] 0 1).1 (by decide)).2 (97/100) (3/100) 1
  · exact ((C6_silent_degradation
      (![![none, none], ![some 7, none]] : Fin 2 → Fin 2 → FVal)
      ![(0 : ℚ), 1] ![(0 : ℚ), 1] 0 1).2 (by decide)).2 (1/2) (1/2) 0

/-- C10.  An all-"no value" station column keeps the whole output column at
the "no value" marker whatever the weights: the along-station pass leaves
the column as NaN and the blend term `new_data2.T * w2` is NaN even for
`w2 = 0` (IEEE `0 * NaN = NaN`), drowning any valid value the along-depth
(row) pass produced at those cells; symmetrically an all-"no value" depth
row forces the whole output row to "no value" even for `w1 = 0`. -/
theorem C10_nan_drowns_blend {m n : ℕ} (data : Fin m → Fin n → FVal)
    (dist : Fin n → ℚ) (depth : Fin m → ℚ) (i0 : Fin m) (j0 : Fin n) :
    ((∀ i, data i j0 = none) →
      ∀ w1 i, extrap_sec data dist depth w1 0 i j0 = none) ∧
    ((∀ j, data i0 j = none) →
      ∀ w2 j, extrap_sec data dist depth 0 w2 i0 j = none) := by
  constructor
  · intro h w1 i
    have hp : passRow depth (fun i => data i j0) = fun i => data i j0 :=
      passRow_of_all_none depth (fun i => data i j0) h
    have hcell : passRow depth (fun i => data i j0) i = none := by
      rw [hp]; exact h i
    show fadd _ (fmul 0 (passRow depth (fun i => data i j0) i)) = none
    rw [hcell, fmul_none, fadd_none_right]
  · intro h w2 j
    have hp : passRow dist (data i0) = data i0 := passRow_of_all_none dist (data i0) h
    show fadd (fmul 0 (passRow dist (data i0) j)) _ = none
    rw [hp, h j, fmul_none, fadd_none_left]

theorem C10_witness :
    extrap_sec (![![none, some 2], ![none, some 7]] : Fin 2 → Fin 2 → FVal)
      ![(0 : ℚ), 1] ![(0 : ℚ), 1] 1 0 1 0 = none ∧
    alongDistPass ![(0 : ℚ), 1]
      (![![none, some 2], ![none, some 7]] : Fin 2 → Fin 2 → FVal) 1 0 = some 7 := by
  refine ⟨?_, by decide⟩
  exact (C10_nan_drowns_blend
    (![![none, some 2], ![none, some 7]] : Fin 2 → Fin 2 → FVal)
    ![(0 : ℚ), 1] ![(0 : ℚ), 1] 0 0).1 (by decide) 1 1

theorem segment_at_left {x1 y1 x2 y2 : ℚ} :
    y1 + (x1 - x1) * (y2 - y1) / (x2 - x1) = y1 := by
  rw [sub_self, zero_mul, zero_div, add_zero]

theorem segment_at_right {x1 y1 x2 y2 : ℚ} (h : x1 < x2) :
    y1 + (x2 - x1) * (y2 - y1) / (x2 - x1) = y2 := by
  rw [mul_div_cancel_left₀ _ (sub_ne_zero.2 (ne_of_gt h)), add_sub_cancel]

theorem extrapEval_node :
    ∀ (pts : List (ℚ × ℚ)), pts.Pairwise (fun p q => p.1 < q.1) →
      ∀ x y, (x, y) ∈ pts → extrapEval pts x = y := by
  intro pts
  induction pts with
  | nil => intro _ x y h; cases h
  | cons p t ih =>
    intro hs x y hm
    match t, hs, hm, ih with
    | [], _, hm, _ =>
      rcases List.mem_singleton.1 hm with rfl
      rfl
    | [q], hs, hm, _ =>
      have hpq : p.1 < q.1 := List.rel_of_pairwise_cons hs (List.mem_singleton.2 rfl)
      rcases List.mem_cons.1 hm with rfl | hm2
      · exact segment_at_left
      · rcases List.mem_singleton.1 hm2 with rfl
        exact segment_at_right hpq
    | q :: r :: rest, hs, hm, ih =>
      have hpq : p.1 < q.1 :=
        List.rel_of_pairwise_cons hs (List.mem_cons_self q (r :: rest))
      rcases List.mem_cons.1 hm with rfl | hm2
      · show extrapEval ((x, y) :: q :: r :: rest) x = y
        unfold extrapEval
        rw [if_pos (le_of_lt hpq)]
        exact segment_at_left
      · show extrapEval (p :: q :: r :: rest) x = y
        unfold extrapEval
        by_cases hx : x ≤ q.1
        · rw [if_pos hx]
          rcases List.mem_cons.1 hm2 with rfl | hm3
          · exact segment_at_right hpq
          · exfalso
            have : q.1 < x :=
              List.rel_of_pairwise_cons (List.Pairwise.of_cons hs) hm3
            exact absurd hx (not_le.2 this)
        · rw [if_neg hx]
          exact ih (List.Pairwise.of_cons hs) x y hm2

/-- C9.  Pure row-only extrapolation (w1 = 1, w2 = 0) is idempotent at the
originally-valid coordinates: with every row of G holding at least two valid
values, rerunning extrap_sec on G' = extrap_sec(G, dist, depth, 1, 0) with
the same arguments returns G' unchanged at every coordinate that was valid
in G and lies strictly inside the valid distance range of its row.  (The
proof in fact never needs the interior restriction: the refitted
piecewise-linear interpolant passes through all of its nodes, boundary nodes
included.) -/
theorem C9_idempotent {m n : ℕ} (data : Fin m → Fin n → FVal) (dist : Fin n → ℚ)
    (depth : Fin m → ℚ)
    (hdist : ∀ a b : Fin n, a < b → dist a < dist b)
    (hrows : ∀ i, 2 ≤ (rowPts dist (data i)).length)
    (i : Fin m) (j : Fin n) (hv : (data i j).isSome)
    (_hint : ∃ j1 j2 : Fin n, (data i j1).isSome ∧ (data i j2).isSome ∧
      dist j1 < dist j ∧ dist j < dist j2) :
    extrap_sec (extrap_sec data dist depth 1 0) dist depth 1 0 i j =
      extrap_sec data dist depth 1 0 i j := by
  have hrowpass : passRow dist (data i) =
      fun j' => some (extrapEval (rowPts dist (data i)) (dist j')) :=
    passRow_of_two_le dist (data i) (hrows i)
  have hG'some : ∀ j', (data i j').isSome →
      ∃ w, extrap_sec data dist depth 1 0 i j' = some w := by
    intro j' hj'
    obtain ⟨u, hu⟩ := Option.isSome_iff_exists.1 hj'
    have hcol : (passRow depth (fun i' => data i' j') i).isSome := by
      apply passRow_isSome
      exact List.ne_nil_of_mem (mem_rowPts depth (fun i' => data i' j') i u hu)
    obtain ⟨c, hc⟩ := Option.isSome_iff_exists.1 hcol
    refine ⟨1 * extrapEval (rowPts dist (data i)) (dist j') + 0 * c, ?_⟩
    show fadd (fmul 1 (passRow dist (data i) j'))
      (fmul 0 (passRow depth (fun i' => data i' j') i)) = _
    have h1 : passRow dist (data i) j' =
        some (extrapEval (rowPts dist (data i)) (dist j')) := by rw [hrowpass]
    rw [h1, hc]
    rfl
  have hle : (rowPts dist (data i)).length ≤
      (rowPts dist (extrap_sec data dist depth 1 0 i)).length := by
    apply rowPts_length_le
    intro j' hj'
    obtain ⟨w, hw⟩ := hG'some j' hj'
    rw [hw]; rfl
  have hlen' : 2 ≤ (rowPts dist (extrap_sec data dist depth 1 0 i)).length :=
    le_trans (hrows i) hle
  obtain ⟨w, hw⟩ := hG'some j hv
  have hmem : (dist j, w) ∈ rowPts dist (extrap_sec data dist depth 1 0 i) :=
    mem_rowPts dist (extrap_sec data dist depth 1 0 i) j w hw
  have hE : extrapEval (rowPts dist (extrap_sec data dist depth 1 0 i)) (dist j) = w :=
    extrapEval_node _ (rowPts_pairwise dist hdist _) (dist j) w hmem
  have hrowpass' : passRow dist (extrap_sec data dist depth 1 0 i) =
      fun j' => some (extrapEval (rowPts dist (extrap_sec data dist depth 1 0 i)) (dist j')) :=
    passRow_of_two_le dist (extrap_sec data dist depth 1 0 i) hlen'
  have hcol' : (passRow depth (fun i' => extrap_sec data dist depth 1 0 i' j) i).isSome := by
    apply passRow_isSome
    exact List.ne_nil_of_mem
      (mem_rowPts depth (fun i' => extrap_sec data dist depth 1 0 i' j) i w hw)
  obtain ⟨c, hc⟩ := Option.isSome_iff_exists.1 hcol'
  show fadd (fmul 1 (passRow dist (extrap_sec data dist depth 1 0 i) j))
    (fmul 0 (passRow depth (fun i' => extrap_sec data dist depth 1 0 i' j) i)) =
      extrap_sec data dist depth 1 0 i j
  have h1 : passRow dist (extrap_sec data dist depth 1 0 i) j =
      some (extrapEval (rowPts dist (extrap_sec data dist depth 1 0 i)) (dist j)) := by
    rw [hrowpass']
  rw [h1, hc, hE, hw]
  show some (1 * w + 0 * c) = some w
  rw [one_mul, zero_mul, add_zero]

theorem C9_witness :
    extrap_sec
      (extrap_sec (![![some 1, some 5, some 2]] : Fin 1 → Fin 3 → FVal)
        ![(0 : ℚ), 1, 2] ![(0 : ℚ)] 1 0)
      ![(0 : ℚ), 1, 2] ![(0 : ℚ)] 1 0 0 1 =
    extrap_sec (![![some 1, some 5, some 2]] : Fin 1 → Fin 3 → FVal)
      ![(0 : ℚ), 1, 2] ![(0 : ℚ)] 1 0 0 1 :=
  C9_idempotent (![![some 1, some 5, some 2]] : Fin 1 → Fin 3 → FVal)
    ![(0 : ℚ), 1, 2] ![(0 : ℚ)] (by decide) (by decide) 0 1 (by decide) (by decide)

/-!
The gen_topomask embedding (plotting.py lines 102-158).

The geodesic pairwise station distances (`gsw.distance(lon, lat)[0] / 1e3`,
in km) and the pressure-to-depth conversion (`-gsw.z_from_p(h, lat.mean())`)
are external black boxes per the spec; they enter the embedding as the
already-computed lists `segs` (one pairwise distance per consecutive station
pair) and `h` (one converted depth per station).
-/

/-- Running sums of a list: `np.cumsum`. -/
def cumsum (l : List ℚ) : List ℚ :=
  (l.foldl (fun acc x => (acc.headI + x) :: acc) []).reverse

/-- The cumulative along-track distance axis
`x = np.append(0, np.cumsum(segs))` (plotting.py line 152): 0 followed by
the running sums of the pairwise distances. -/
def distanceAxis (segs : List ℚ) : List ℚ := 0 :: cumsum segs

/-- numpy arange(0, stop, step) for a positive step: the multiples
`0, step, 2*step, ...` strictly below `stop`; the number of samples is
`ceil(stop / step)`. -/
def arange0 (stop step : ℚ) : List ℚ :=
  (List.range (Int.toNat (Int.ceil (stop / step)))).map (fun k : ℕ => (k : ℚ) * step)

/-- scipy interp1d fitted to nodes `xs`/values `hs` with
`bounds_error=False, fill_value=fill` (plotting.py line 154): queries
outside `[xs[0], xs[-1]]` return `fill`, queries inside evaluate the
piecewise-linear interpolant. -/
def topoInterp (xs hs : List ℚ) (fill q : ℚ) : ℚ :=
  if q < xs.headI ∨ xs.getLastD 0 < q then fill
  else extrapEval (xs.zip hs) q

/-- The fitted seafloor interpolant Ih of gen_topomask (plotting.py line
154): nodes are the distance axis `x`, values the converted depths `h`, and
the constant fill value is `h[-1]`, the last station's depth. -/
def gen_topomask_Ih (x h : List ℚ) : ℚ → ℚ :=
  topoInterp x h (h.getLastD 0)

/-- gen_topomask (plotting.py lines 102-158) after the two external
conversions: builds the distance axis, fits `Ih`, resamples at
`xm = np.arange(0, x.max() + dx, dx)` (line 155) and evaluates `hm = Ih(xm)`
(line 156), returning the pair `(xm, hm)`. -/
def gen_topomask (segs h : List ℚ) (dx : ℚ) : List ℚ × List ℚ :=
  let x := distanceAxis segs
  let xm := arange0 (npmax x + dx) dx
  (xm, xm.map (gen_topomask_Ih x h))

/-- C7.  Any query strictly beyond the last station's cumulative distance
makes gen_topomask's fitted seafloor interpolant return exactly the last
station's computed depth — the scalar fill value `h[-1]` — independent of
how far beyond the query lies. -/
theorem C7_flat_beyond_last (segs h : List ℚ) (q : ℚ)
    (hq : (distanceAxis segs).getLastD 0 < q) :
    gen_topomask_Ih (distanceAxis segs) h q = h.getLastD 0 := by
  unfold gen_topomask_Ih topoInterp
  rw [if_pos (Or.inr hq)]

theorem C7_witness :
    gen_topomask_Ih (distanceAxis [2, 3]) [4, 9, 6] 100 = 6 :=
  C7_flat_beyond_last [2, 3] [4, 9, 6] 100 (by decide)

/-- C8.  The claim says no resampled distance exceeds max(DistanceAxis); it
fails whenever the maximum distance is not a multiple of dx, because
`np.arange(0, x.max() + dx, dx)` overshoots: with one pairwise distance of
5/2 km and dx = 1 the distance axis is [0, 5/2] but the resampled sequence
is [0, 1, 2, 3], whose last sample 3 exceeds 5/2. -/
theorem C8_counterexample :
    ∃ d ∈ (gen_topomask [5/2] [1, 1] 1).1, npmax (distanceAxis [5/2]) < d := by
  decide

theorem le_foldl_qmax : ∀ (t : List ℚ) (init : ℚ), init ≤ t.foldl qmax init := by
  intro t
  induction t with
  | nil => intro init; exact le_refl init
  | cons y t ih =>
    intro init
    show init ≤ t.foldl qmax (qmax init y)
    calc init ≤ qmax init y := by rw [qmax_eq_max]; exact le_max_left init y
      _ ≤ t.foldl qmax (qmax init y) := ih (qmax init y)

theorem npmax_distanceAxis_nonneg (segs : List ℚ) :
    0 ≤ npmax (distanceAxis segs) := by
  show (0 : ℚ) ≤ (0 :: cumsum segs).foldl qmax (0 :: cumsum segs).headI
  show (0 : ℚ) ≤ (cumsum segs).foldl qmax (qmax 0 0)
  have h00 : qmax (0 : ℚ) 0 = 0 := by rw [qmax_eq_max, max_self]
  rw [h00]
  exact le_foldl_qmax (cumsum segs) 0

theorem arange0_facts (M dx : ℚ) (hM : 0 ≤ M) (hdx : 0 < dx) :
    arange0 (M + dx) dx ≠ [] ∧
    (arange0 (M + dx) dx).headI = 0 ∧
    (arange0 (M + dx) dx).Pairwise (fun a b => a ≤ b) ∧
    M ≤ (arange0 (M + dx) dx).getLastD 0 ∧
    (arange0 (M + dx) dx).getLastD 0 < M + dx := by
  have hdx0 : dx ≠ 0 := ne_of_gt hdx
  have hdiv : (M + dx) / dx = M / dx + 1 := by
    rw [add_div, div_self hdx0]
  have hc0 : (0 : ℤ) ≤ Int.ceil (M / dx) :=
    Int.ceil_nonneg (div_nonneg hM (le_of_lt hdx))
  have hk : Int.toNat (Int.ceil ((M + dx) / dx)) =
      Int.toNat (Int.ceil (M / dx)) + 1 := by
    rw [hdiv, Int.ceil_add_one]
    omega
  have hxm : arange0 (M + dx) dx =
      (List.range (Int.toNat (Int.ceil (M / dx)) + 1)).map (fun k : ℕ => (k : ℚ) * dx) := by
    unfold arange0
    rw [hk]
  have hcast : ((Int.toNat (Int.ceil (M / dx)) : ℚ)) = ((Int.ceil (M / dx) : ℤ) : ℚ) := by
    exact_mod_cast congrArg (fun z : ℤ => (z : ℚ)) (Int.toNat_of_nonneg hc0)
  have hlower : M ≤ (Int.toNat (Int.ceil (M / dx)) : ℚ) * dx := by
    have h1 : M / dx ≤ ((Int.ceil (M / dx) : ℤ) : ℚ) := Int.le_ceil _
    have h2 : M / dx * dx ≤ ((Int.ceil (M / dx) : ℤ) : ℚ) * dx :=
      mul_le_mul_of_nonneg_right h1 (le_of_lt hdx)
    rw [div_mul_cancel₀ M hdx0] at h2
    rw [hcast]
    exact h2
  have hupper : (Int.toNat (Int.ceil (M / dx)) : ℚ) * dx < M + dx := by
    have h1 : ((Int.ceil (M / dx) : ℤ) : ℚ) < M / dx + 1 := Int.ceil_lt_add_one _
    have h2 : ((Int.ceil (M / dx) : ℤ) : ℚ) * dx < (M / dx + 1) * dx :=
      mul_lt_mul_of_pos_right h1 hdx
    rw [add_mul, div_mul_cancel₀ M hdx0, one_mul] at h2
    rw [hcast]
    exact h2
  have hlastD : (arange0 (M + dx) dx).getLastD 0 =
      (Int.toNat (Int.ceil (M / dx)) : ℚ) * dx := by
    rw [hxm, List.range_succ, List.map_append]
    exact List.getLastD_concat _ _ _
  refine ⟨?_, ?_, ?_, ?_, ?_⟩
  · rw [hxm]
    apply List.ne_nil_of_length_pos
    rw [List.length_map, List.length_range]
    omega
  · rw [hxm, List.range_succ_eq_map]
    show ((0 : ℕ) : ℚ) * dx = 0
    rw [Nat.cast_zero, zero_mul]
  · rw [hxm]
    apply List.pairwise_map.2
    apply List.Pairwise.imp ?_ (List.pairwise_lt_range _)
    intro a b hab
    have : (a : ℚ) ≤ (b : ℚ) := by exact_mod_cast le_of_lt hab
    exact mul_le_mul_of_nonneg_right this (le_of_lt hdx)
  · rw [hlastD]; exact hlower
  · rw [hlastD]; exact hupper

/-- C8, amended.  For a section of at least two stations and dx > 0, the
resampled distance sequence of gen_topomask is nonempty, starts at exactly
0, is monotonically non-decreasing, and its final sample lands in
[max(DistanceAxis), max(DistanceAxis) + dx): the sequence covers the full
transect, but the last sample may exceed max(DistanceAxis) (by less than
dx) whenever the maximum is not a multiple of dx, because
`np.arange(0, max + dx, dx)` overshoots. -/
theorem C8_amended (segs h : List ℚ) (dx : ℚ) (hdx : 0 < dx) (_hsegs : segs ≠ []) :
    (gen_topomask segs h dx).1 ≠ [] ∧
    (gen_topomask segs h dx).1.headI = 0 ∧
    (gen_topomask segs h dx).1.Pairwise (fun a b => a ≤ b) ∧
    npmax (distanceAxis segs) ≤ (gen_topomask segs h dx).1.getLastD 0 ∧
    (gen_topomask segs h dx).1.getLastD 0 < npmax (distanceAxis segs) + dx := by
  have hxm : (gen_topomask segs h dx).1 =
      arange0 (npmax (distanceAxis segs) + dx) dx := rfl
  rw [hxm]
  exact arange0_facts (npmax (distanceAxis segs)) dx
    (npmax_distanceAxis_nonneg segs) hdx

theorem C8_amended_witness :
    (gen_topomask [2] [1, 1] 1).1 ≠ [] ∧
    (gen_topomask [2] [1, 1] 1).1.headI = 0 ∧
    (gen_topomask [2] [1, 1] 1).1.Pairwise (fun a b => a ≤ b) ∧
    npmax (distanceAxis [2]) ≤ (gen_topomask [2] [1, 1] 1).1.getLastD 0 ∧
    (gen_topomask [2] [1, 1] 1).1.getLastD 0 < npmax (distanceAxis [2]) + 1 :=
  C8_amended [2] [1, 1] 1 (by norm_num) (by decide)
